import Mathlib

/-!
Shallow embedding of the TvTumbler release-resolution pipeline:
`tvtumbler/feeder.py` (the resolution engine `run`),
`tvtumbler/feeders/base.py` (the `BaseFeeder` refresh state machine and
`TorrentFeeder._parse_rss_item`), and
`tvtumbler/feeders/showrss.py` (`ShowRSSFeeder._parse_rss_item`).

External collaborators are parameters of the embedded functions: the feed
fetch collaborator (`feedparser.parse`) appears as an `Option (List Item)`
argument (`none` models a falsy/failed feed), the scene name parser as a
function argument, the current clock reading as a `Nat` argument, and the
want-list predicate (`is_wanted`) as a boolean predicate argument.
Machine timestamps are modelled as natural numbers.
-/

namespace TvTumbler

/-- One parsed TV episode as produced by the name parser.  It carries the
show's tvdb id (`ep.tvshow.tvdb_id` in the source) and the list of
`(season, episode)` pairs (`ep.tvdb_episodes`). -/
structure TvEpisode where
  tvdb_id : Nat
  tvdb_episodes : List (Nat × Nat)
deriving DecidableEq

/-- A normalized release (a `links.Torrent`): the candidate retrieval urls,
the referenced episodes, the display name, the quality, and the publish
timestamp. -/
structure Torrent where
  urls : List String
  episodes : List TvEpisode
  name : Option String
  quality : Nat
  timestamp : Nat
deriving DecidableEq

/-- Modelled from the spec: `quality.py` is not among the sources under
review.  The spec describes Quality as an ordered numeric enumeration with
a distinguished `UNKNOWN_QUALITY` that is excluded from best-quality
comparisons and used only as a fallback. -/
def UNKNOWN_QUALITY : Nat := 0

/-- Modelled from the spec: the known quality constant `HD720P_COMP` used
by the ShowRSS adapter; a known (non-UNKNOWN, truthy i.e. non-zero)
quality value. -/
def HD720P_COMP : Nat := 2

/-- A `(tvdb_id, season, episode)` triple: the deduplication key of the
resolution engine (`feeder.py` line 33). -/
abbrev Key := Nat × Nat × Nat

/-- Python `dict` lookup on an association list (the first binding for a
key wins; dicts built below never hold duplicate keys). -/
def alookup {α β : Type} [DecidableEq α] : List (α × β) → α → Option β
  | [], _ => none
  | p :: t, k => if p.1 = k then some p.2 else alookup t k

/-- Replace the value bound to an existing key, keeping list order; a list
without the key is returned unchanged. -/
def aupdate {α β : Type} [DecidableEq α] : List (α × β) → α → β → List (α × β)
  | [], _, _ => []
  | p :: t, k, v => if p.1 = k then (k, v) :: t else p :: aupdate t k v

/-- The inner dict of `wanted_dict`: quality to release. -/
abbrev QDict := List (Nat × Torrent)

/-- The nested index `wanted_dict` of `feeder.py`. -/
abbrev FIndex := List (Key × QDict)

/-- `if not qual in wanted_dict[key]: wanted_dict[key][qual] = w`
(`feeder.py` lines 36-37): insert only when the quality key is absent, so
the first-recorded release for a quality is never overwritten. -/
def qdictInsert (d : QDict) (q : Nat) (w : Torrent) : QDict :=
  if (alookup d q).isSome then d else d ++ [(q, w)]

/-- Lines 33-37 of `feeder.py` for one `(tvdb_id, season, episode)` key:
create the inner dict when the key is new, then conditionally record the
release under its quality. -/
def indexInsert (ix : FIndex) (k : Key) (q : Nat) (w : Torrent) : FIndex :=
  match alookup ix k with
  | none => ix ++ [(k, qdictInsert [] q w)]
  | some d => aupdate ix k (qdictInsert d q w)

/-- The `(ep.tvdb_id, season, episode)` keys contributed by one parsed
episode (the innermost loop of `feeder.py` lines 31-33). -/
def keysOfEp (ep : TvEpisode) : List Key :=
  ep.tvdb_episodes.map (fun p => (ep.tvdb_id, p.1, p.2))

/-- Concatenation of the per-episode key lists, in loop order. -/
def keysList : List TvEpisode → List Key
  | [] => []
  | ep :: rest => keysOfEp ep ++ keysList rest

/-- All `(tvdb_id, season, episode)` keys referenced by a release (the two
inner loops of `feeder.py` lines 30-33). -/
def keysOf (w : Torrent) : List Key :=
  keysList w.episodes

/-- The body of the outer indexing loop (`feeder.py` lines 28-37) for one
wanted release `w`. -/
def insertTorrent (ix : FIndex) (w : Torrent) : FIndex :=
  (keysOf w).foldl (fun a k => indexInsert a k w.quality w) ix

/-- The fully built `wanted_dict` (`feeder.py` lines 27-37). -/
def buildIndex (wanted : List Torrent) : FIndex :=
  wanted.foldl insertTorrent []

/-- `wanted_dict[key][qual]` as a partial lookup. -/
def lookup2 (ix : FIndex) (k : Key) (q : Nat) : Option Torrent :=
  (alookup ix k).bind (fun d => alookup d q)

/-- Python `max` over a list of naturals (`0` on the empty list, on which
Python would raise; the engine only applies it to non-empty lists). -/
def listMax : List Nat → Nat
  | [] => 0
  | x :: xs => Nat.max x (listMax xs)

/-- `feeder.py` lines 40-45: among the recorded qualities, drop
`UNKNOWN_QUALITY`; if any known quality remains pick the entry at the
maximum known quality, otherwise fall back to the `UNKNOWN_QUALITY`
entry. -/
def selectFor (d : QDict) : Option Torrent :=
  let known := (d.map Prod.fst).filter (fun q => q != UNKNOWN_QUALITY)
  if known.isEmpty then alookup d UNKNOWN_QUALITY else alookup d (listMax known)

/-- The winner chosen by a resolution run for one episode key. -/
def selectedFor (wp : Torrent → Bool) (latest : List Torrent) (k : Key) : Option Torrent :=
  (alookup (buildIndex (latest.filter wp)) k).bind selectFor

/-- `feeder.run` (`feeder.py` lines 17-46): filter the aggregated list to
wanted releases, build the nested index, and dispatch one selection per
indexed episode key.  The predicate `wp` stands for the external want-list
collaborator (`s.is_wanted`) and `latest` for the aggregated
`feeders.get_latest()` result; each produced pair is one
`downloaders.download(use_dlable)` call. -/
def run (wp : Torrent → Bool) (latest : List Torrent) : List (Key × Option Torrent) :=
  let wanted := latest.filter wp
  (buildIndex wanted).map (fun p => (p.1, selectFor p.2))

/-- One rss enclosure: the declared MIME `type` and the `href`. -/
structure Enclosure where
  type : String
  href : String
deriving DecidableEq

/-- One generic rss link entry. -/
structure RSSLink where
  href : String
deriving DecidableEq

/-- A feedparser entry as consumed by `TorrentFeeder._parse_rss_item`.
A `none` field stands for the attribute being absent, in which case the
Python attribute access raises `KeyError`/`AttributeError` (caught by the
per-field handlers in the source). -/
structure Item where
  filename : Option String
  magneturi : Option String
  enclosures : Option (List Enclosure)
  links : Option (List RSSLink)
  title : Option String
  published_parsed : Option Nat
  infohash : Option String
deriving DecidableEq

/-- Result of the external scene name parser collaborator
(`self.get_nameparser()(parse_name, ...)`). -/
structure NPResult where
  is_known : Bool
  episodes : List TvEpisode
  quality : Nat

/-- The name-parser collaborator: gets the parse name (possibly absent in
Python, hence `Option`) and the `has_ext` flag. -/
abbrev NameParse := Option String → Bool → NPResult

/-- Python `str.startswith`, modelled on the codepoint list (Lean's own
byte-indexed string primitives do not reduce inside the kernel). -/
def strStartsWith (s pre : String) : Bool :=
  pre.data.isPrefixOf s.data

/-- Python `str.endswith`, modelled on the codepoint list. -/
def strEndsWith (s suf : String) : Bool :=
  suf.data.reverse.isPrefixOf s.data.reverse

/-- Python slicing `s[n:]`, modelled on the codepoint list. -/
def strDrop (s : String) (n : Nat) : String :=
  String.mk (s.data.drop n)

/-- `base.py` lines 134-141.  The source condition is
`enc.type == 'application/x-bittorrent' or enc.href.startswith('magnet:')
or enc.href.endwidth('.torrent')`.  `str` has no method `endwidth`, so for
an enclosure on which the first two disjuncts are false, evaluating the
third raises `AttributeError`; the surrounding `except` swallows it and
the whole enclosure loop is abandoned, keeping only the urls appended so
far.  Hence such an enclosure contributes nothing and stops the scan. -/
def collectEnclosureUrls : List Enclosure → List String
  | [] => []
  | enc :: rest =>
    if enc.type == "application/x-bittorrent" || strStartsWith enc.href "magnet:" then
      enc.href :: collectEnclosureUrls rest
    else
      []

/-- `base.py` lines 143-148: generic links matching the magnet prefix or
the `.torrent` suffix. -/
def collectLinkUrls : List RSSLink → List String
  | [] => []
  | l :: rest =>
    if strStartsWith l.href "magnet:" || strEndsWith l.href ".torrent" then
      l.href :: collectLinkUrls rest
    else
      collectLinkUrls rest

/-- `base.py` lines 116-169: the urls accumulated before deduplication.
Order of the steps follows the source: direct magnet uri, enclosures,
generic links, and a magnet synthesized from the info hash when the hash
is truthy and no magnet url was collected so far. -/
def collectUrls (item : Item) : List String :=
  let urls1 : List String :=
    match item.magneturi with
    | some m => if m != "" then [m] else []
    | none => []
  let urls2 := urls1 ++ (match item.enclosures with
    | some encs => collectEnclosureUrls encs
    | none => [])
  let urls3 := urls2 ++ (match item.links with
    | some ls => collectLinkUrls ls
    | none => [])
  match item.infohash with
  | some h =>
    if h != "" && (urls3.filter (fun k => strStartsWith k "magnet:")).isEmpty then
      urls3 ++ ["magnet:?xt=urn:btih:" ++ h]
    else urls3
  | none => urls3

/-- Helper for `list(set(urls))`: drop elements already seen. -/
def dedupAux : List String → List String → List String
  | _, [] => []
  | seen, x :: xs =>
    if x ∈ seen then dedupAux seen xs else x :: dedupAux (x :: seen) xs

/-- `urls = list(set(urls))` (`base.py` line 172): duplicate removal.  We
fix the first-occurrence order; the verified claims depend only on
membership and emptiness, which are order-independent. -/
def dedup (l : List String) : List String :=
  dedupAux [] l

/-- `TorrentFeeder._parse_rss_item` (`base.py` lines 106-199).  `np` is
the external name-parser collaborator and `now` the current clock reading
(`datetime.datetime.now()`), used as the fallback publish timestamp. -/
def torrent_parse_rss_item (np : NameParse) (now : Nat) (item : Item) : Option Torrent :=
  let fileName := item.filename
  let title := item.title
  let pubDate : Nat :=
    match item.published_parsed with
    | some d => d
    | none => now
  let urls := dedup (collectUrls item)
  if urls.isEmpty then none
  else
    let pn : Option String × Bool :=
      match fileName with
      | some f => if f != "" then (some f, true) else (title, false)
      | none => (title, false)
    let npr := np pn.1 pn.2
    if npr.is_known then
      some { urls := urls, episodes := npr.episodes, name := title,
             quality := npr.quality, timestamp := pubDate }
    else
      none

/-- The mutable state of a `BaseFeeder` (`base.py` lines 22-34). -/
structure FeederState where
  min_update_freq_secs : Nat
  rss_url : Option String
  latest : List Torrent
  last_update_datetime : Option Nat
deriving DecidableEq

/-- `BaseFeeder.__init__`: 15-minute minimum refresh interval, no url,
empty cache, no fetch recorded. -/
def initFeeder : FeederState :=
  { min_update_freq_secs := 15 * 60, rss_url := none, latest := [],
    last_update_datetime := none }

/-- `BaseFeeder._update` (`base.py` lines 77-90).  `feed` is the result of
the external fetch collaborator `feedparser.parse(self.rss_url)`; `none`
stands for a falsy feed (fetch failure).  Note that the source stamps
`self._last_update_datetime` and clears `self._latest` before testing
`if feed:`; only on a truthy feed does it repopulate the cache by
appending each truthy parse result in entry order. -/
def update (prs : Item → Option Torrent) (now : Nat) (feed : Option (List Item))
    (s : FeederState) : FeederState × Bool :=
  let s1 : FeederState :=
    { s with last_update_datetime := some now, latest := [] }
  match feed with
  | some entries =>
    ({ s1 with
        latest := entries.foldl
          (fun acc e =>
            match prs e with
            | some i => acc ++ [i]
            | none => acc) [] }, true)
  | none => (s1, false)

/-- The refresh condition inlined in `get_latest` (`base.py` lines 70-72):
due when no update was ever attempted, or when the last attempt is older
than `min_update_freq_secs`. -/
def is_due (now : Nat) (s : FeederState) : Bool :=
  match s.last_update_datetime with
  | none => true
  | some t => decide (t + s.min_update_freq_secs < now)

/-- `BaseFeeder.get_latest` (`base.py` lines 63-75): refresh when due,
then return the cache. -/
def get_latest (prs : Item → Option Torrent) (now : Nat) (feed : Option (List Item))
    (s : FeederState) : FeederState × List Torrent :=
  if is_due now s then
    let s' := (update prs now feed s).1
    (s', s'.latest)
  else
    (s, s.latest)

/-- `ShowRSSFeeder._parse_rss_item` (`showrss.py` lines 21-36).  When the
title carries the marker, strip the first 9 characters before delegating
to the generic torrent parser, and afterwards override the quality with
`HD720P_COMP` exactly when the generic parse produced `UNKNOWN_QUALITY`.
`item.title` is read outside any handler, so a missing title raises
(modelled as `Except.error`). -/
def showrss_parse (np : NameParse) (now : Nat) (item : Item) :
    Except Unit (Option Torrent) :=
  match item.title with
  | none => Except.error ()
  | some t =>
    let stripped : Item × Option Nat :=
      if strStartsWith t "HD 720p: " then
        ({ item with title := some (strDrop t 9) }, some HD720P_COMP)
      else
        (item, none)
    let torrent := torrent_parse_rss_item np now stripped.1
    Except.ok
      (match torrent, stripped.2 with
       | some tor, some kq =>
         some (if tor.quality = UNKNOWN_QUALITY then { tor with quality := kq } else tor)
       | _, _ => torrent)

/-- The membership/quality predicate characterizing the first release
recorded under a given key and quality. -/
def wpred (k : Key) (q : Nat) : Torrent → Bool :=
  fun v => v.quality == q && decide (k ∈ keysOf v)

/-- All inner dicts of a built index are non-empty. -/
def IndexWF (ix : FIndex) : Prop :=
  ∀ k d, alookup ix k = some d → d ≠ []

/-- Concrete episode used by the witnesses: show 42, season 1, episode 5. -/
def epX : TvEpisode := ⟨42, [(1, 5)]⟩

/-- Episode key of `epX`. -/
def k0 : Key := (42, 1, 5)

/-- A want-list collaborator that wants everything. -/
def wp0 : Torrent → Bool := fun _ => true

/-- Higher-priority source's release at quality HD720p. -/
def tA : Torrent := ⟨["http://a/1.torrent"], [epX], some "A.S01E05.720p", 2, 0⟩

/-- Lower-priority source's release at the higher quality HD1080p. -/
def tB : Torrent := ⟨["http://b/1.torrent"], [epX], some "B.S01E05.1080p", 3, 0⟩

/-- Earlier release of a same-quality tie. -/
def tA2 : Torrent := ⟨["http://a/2.torrent"], [epX], some "A2.S01E05.720p", 2, 0⟩

/-- Later release of a same-quality tie. -/
def tB2 : Torrent := ⟨["http://b/2.torrent"], [epX], some "B2.S01E05.720p", 2, 0⟩

/-- A release whose only recorded quality is `UNKNOWN_QUALITY`. -/
def tU : Torrent := ⟨["http://u/1.torrent"], [epX], some "U.S01E05", UNKNOWN_QUALITY, 0⟩

/-- A cached release used in the feeder-state scenarios. -/
def tC : Torrent := ⟨["magnet:?xt=urn:btih:cc"], [epX], some "C.S01E05", 2, 0⟩

/-- Name parser stub recognizing everything at quality 2 (HD720p). -/
def npK : NameParse := fun _ _ => ⟨true, [epX], 2⟩

/-- Name parser stub recognizing everything at `UNKNOWN_QUALITY`. -/
def npU : NameParse := fun _ _ => ⟨true, [epX], UNKNOWN_QUALITY⟩

/-- Per-item parser stub returning the fixed release `tC`. -/
def prs0 : Item → Option Torrent := fun _ => some tC

/-- A bare item: title only, no urls of any kind. -/
def itm0 : Item := ⟨none, none, none, none, some "X.S01E05", none, none⟩

/-- An item carrying a direct magnet uri and a publish date. -/
def itmMag : Item := ⟨none, some "magnet:?xt=urn:btih:aa", none, none, some "Show.S01E05", some 7, none⟩

/-- An item whose first enclosure is a `.torrent` link of a non-bittorrent
MIME type and whose second is bittorrent-typed. -/
def itmEnc : Item :=
  ⟨none, none,
   some [⟨"text/html", "http://example.com/file.torrent"⟩,
         ⟨"application/x-bittorrent", "http://example.com/f2"⟩],
   none, some "Show.S01E05", some 7, none⟩

/-- An item whose title carries the ShowRSS quality marker. -/
def itmHD : Item := ⟨none, some "magnet:?xt=urn:btih:bb", none, none, some "HD 720p: Foo.S01E05", some 7, none⟩

/-- The parse of `itmMag` under `npK`. -/
def tM : Torrent :=
  ⟨["magnet:?xt=urn:btih:aa"], [epX], some "Show.S01E05", 2, 7⟩

/-- The parse of `itmMag` with its date removed, under `npK` at time 5. -/
def tM2 : Torrent :=
  ⟨["magnet:?xt=urn:btih:aa"], [epX], some "Show.S01E05", 2, 5⟩

/-- The generic parse of `itmHD` after marker stripping, under `npU`. -/
def tHD : Torrent :=
  ⟨["magnet:?xt=urn:btih:bb"], [epX], some "Foo.S01E05", UNKNOWN_QUALITY, 7⟩

/-! Association-list lemmas. -/

theorem alookup_append {α β : Type} [DecidableEq α] (l₁ l₂ : List (α × β)) (k : α) :
    alookup (l₁ ++ l₂) k =
      match alookup l₁ k with
      | some v => some v
      | none => alookup l₂ k := by
  induction l₁ with
  | nil => rfl
  | cons p t ih =>
    simp only [List.cons_append, alookup]
    split
    · rfl
    · exact ih

theorem alookup_aupdate_self {α β : Type} [DecidableEq α] (l : List (α × β)) (k : α) (v : β)
    (h : (alookup l k).isSome = true) : alookup (aupdate l k v) k = some v := by
  induction l with
  | nil => simp [alookup] at h
  | cons p t ih =>
    by_cases hp : p.1 = k
    · simp [aupdate, alookup, hp]
    · simp only [aupdate, alookup, hp, if_false] at *
      exact ih h

theorem alookup_aupdate_ne {α β : Type} [DecidableEq α] (l : List (α × β)) (k k' : α) (v : β)
    (h : k' ≠ k) : alookup (aupdate l k v) k' = alookup l k' := by
  induction l with
  | nil => rfl
  | cons p t ih =>
    by_cases hp : p.1 = k
    · have hk : ¬(k = k') := fun he => h he.symm
      simp [aupdate, alookup, hp, hk]
    · simp only [aupdate, hp, if_false, alookup]
      split
      · rfl
      · exact ih

theorem alookup_isSome_of_mem_keys {α β : Type} [DecidableEq α] (l : List (α × β)) (k : α)
    (h : k ∈ l.map Prod.fst) : (alookup l k).isSome = true := by
  induction l with
  | nil => simp at h
  | cons p t ih =>
    simp only [List.map_cons, List.mem_cons] at h
    by_cases hp : p.1 = k
    · simp [alookup, hp]
    · rcases h with h | h
      · exact absurd h.symm hp
      · simp only [alookup, hp, if_false]
        exact ih h

theorem mem_keys_of_alookup_isSome {α β : Type} [DecidableEq α] (l : List (α × β)) (k : α)
    (h : (alookup l k).isSome = true) : k ∈ l.map Prod.fst := by
  induction l with
  | nil => simp [alookup] at h
  | cons p t ih =>
    by_cases hp : p.1 = k
    · simp [hp.symm]
    · simp only [alookup, hp, if_false] at h
      simp only [List.map_cons, List.mem_cons]
      exact Or.inr (ih h)

theorem mem_of_alookup_eq_some {α β : Type} [DecidableEq α] (l : List (α × β)) (k : α) (v : β)
    (h : alookup l k = some v) : (k, v) ∈ l := by
  induction l with
  | nil => simp [alookup] at h
  | cons p t ih =>
    obtain ⟨a, b⟩ := p
    by_cases hp : a = k
    · simp only [alookup, hp, if_true, Option.some.injEq] at h
      subst hp
      subst h
      exact List.mem_cons_self _ _
    · simp only [alookup, hp, if_false] at h
      exact List.mem_cons_of_mem _ (ih h)

theorem alookup_singleton_self {α β : Type} [DecidableEq α] (k : α) (v : β) :
    alookup [(k, v)] k = some v := by
  simp [alookup]

theorem alookup_singleton_ne {α β : Type} [DecidableEq α] (k k' : α) (v : β) (h : k' ≠ k) :
    alookup [(k, v)] k' = none := by
  have hk : ¬(k = k') := fun hh => h hh.symm
  simp [alookup, hk]

theorem qdictInsert_of_isSome (d : QDict) (q : Nat) (w : Torrent)
    (h : (alookup d q).isSome = true) : qdictInsert d q w = d := by
  simp [qdictInsert, h]

theorem qdictInsert_of_none (d : QDict) (q : Nat) (w : Torrent)
    (h : alookup d q = none) : qdictInsert d q w = d ++ [(q, w)] := by
  simp [qdictInsert, h]

/-! Characterization of the nested index built by the resolution engine. -/

theorem lookup2_indexInsert_self (ix : FIndex) (k : Key) (q : Nat) (w : Torrent) :
    lookup2 (indexInsert ix k q w) k q =
      match lookup2 ix k q with
      | some v => some v
      | none => some w := by
  unfold indexInsert lookup2
  cases hix : alookup ix k with
  | none =>
    rw [alookup_append, hix]
    simp [alookup, qdictInsert]
  | some d =>
    have h1 : alookup (aupdate ix k (qdictInsert d q w)) k = some (qdictInsert d q w) :=
      alookup_aupdate_self ix k _ (by rw [hix]; rfl)
    rw [h1]
    cases hq : alookup d q with
    | some v =>
      rw [qdictInsert_of_isSome d q w (by rw [hq]; rfl)]
      simp [hq]
    | none =>
      rw [qdictInsert_of_none d q w hq]
      simp [alookup_append, hq, alookup]

theorem lookup2_indexInsert_ne (ix : FIndex) (k : Key) (q : Nat) (w : Torrent)
    (k' : Key) (q' : Nat) (h : ¬(k' = k ∧ q' = q)) :
    lookup2 (indexInsert ix k q w) k' q' = lookup2 ix k' q' := by
  unfold indexInsert lookup2
  cases hix : alookup ix k with
  | none =>
    rw [alookup_append]
    cases h1 : alookup ix k' with
    | some d => simp
    | none =>
      by_cases hk : k' = k
      · subst hk
        have hq : q' ≠ q := fun hqq => h ⟨rfl, hqq⟩
        rw [alookup_singleton_self]
        show alookup (qdictInsert [] q w) q' = none
        simp [qdictInsert, alookup, Ne.symm hq]
      · rw [alookup_singleton_ne _ _ _ hk]
  | some d =>
    by_cases hk : k' = k
    · subst hk
      have hq : q' ≠ q := fun hqq => h ⟨rfl, hqq⟩
      rw [alookup_aupdate_self _ _ _ (by rw [hix]; rfl)]
      cases hq2 : alookup d q with
      | some v =>
        rw [qdictInsert_of_isSome d q w (by rw [hq2]; rfl), hix]
      | none =>
        rw [qdictInsert_of_none d q w hq2, hix]
        show alookup (d ++ [(q, w)]) q' = alookup d q'
        rw [alookup_append]
        cases h2 : alookup d q' with
        | some v => simp
        | none => simp [alookup_singleton_ne _ _ _ hq]
    · rw [alookup_aupdate_ne _ _ _ _ hk]

theorem lookup2_foldKeys_ne (q0 : Nat) (w : Torrent) :
    ∀ (ks : List Key) (ix : FIndex) (k : Key) (q : Nat), k ∉ ks ∨ q ≠ q0 →
      lookup2 (ks.foldl (fun a k2 => indexInsert a k2 q0 w) ix) k q = lookup2 ix k q := by
  intro ks
  induction ks with
  | nil => intro ix k q _; rfl
  | cons k1 t ih =>
    intro ix k q h
    simp only [List.foldl_cons]
    have h' : k ∉ t ∨ q ≠ q0 := by
      rcases h with h | h
      · exact Or.inl (fun hm => h (List.mem_cons_of_mem _ hm))
      · exact Or.inr h
    rw [ih _ _ _ h']
    apply lookup2_indexInsert_ne
    rintro ⟨rfl, rfl⟩
    rcases h with h | h
    · exact h (List.mem_cons_self _ _)
    · exact h rfl

theorem lookup2_foldKeys_mem (q0 : Nat) (w : Torrent) :
    ∀ (ks : List Key) (ix : FIndex) (k : Key), k ∈ ks →
      lookup2 (ks.foldl (fun a k2 => indexInsert a k2 q0 w) ix) k q0 =
        match lookup2 ix k q0 with
        | some v => some v
        | none => some w := by
  intro ks
  induction ks with
  | nil => intro ix k h; simp at h
  | cons k1 t ih =>
    intro ix k h
    simp only [List.foldl_cons]
    by_cases hkt : k ∈ t
    · rw [ih _ _ hkt]
      by_cases hk1 : k = k1
      · subst hk1
        rw [lookup2_indexInsert_self]
        cases lookup2 ix k q0 <;> rfl
      · rw [lookup2_indexInsert_ne _ _ _ _ _ _ (by rintro ⟨h1, _⟩; exact hk1 h1)]
    · have hk1 : k = k1 := by
        rcases List.mem_cons.mp h with h1 | h1
        · exact h1
        · exact absurd h1 hkt
      subst hk1
      rw [lookup2_foldKeys_ne q0 w t _ _ _ (Or.inl hkt)]
      exact lookup2_indexInsert_self _ _ _ _

theorem lookup2_foldl_insertTorrent :
    ∀ (l : List Torrent) (ix : FIndex) (k : Key) (q : Nat),
      lookup2 (l.foldl insertTorrent ix) k q =
        match lookup2 ix k q with
        | some v => some v
        | none => l.find? (wpred k q) := by
  intro l
  induction l with
  | nil =>
    intro ix k q
    simp only [List.foldl_nil, List.find?_nil]
    cases lookup2 ix k q <;> rfl
  | cons w t ih =>
    intro ix k q
    simp only [List.foldl_cons]
    rw [ih]
    by_cases hp : wpred k q w = true
    · have hq : w.quality = q := by
        have h2 := hp
        simp only [wpred, Bool.and_eq_true, beq_iff_eq, decide_eq_true_eq] at h2
        exact h2.1
      have hk : k ∈ keysOf w := by
        have h2 := hp
        simp only [wpred, Bool.and_eq_true, beq_iff_eq, decide_eq_true_eq] at h2
        exact h2.2
      subst hq
      simp only [insertTorrent]
      rw [lookup2_foldKeys_mem _ _ _ _ _ hk]
      rw [List.find?_cons_of_pos _ hp]
      cases lookup2 ix k w.quality <;> rfl
    · have hcond : k ∉ keysOf w ∨ q ≠ w.quality := by
        by_contra hc
        push_neg at hc
        apply hp
        simp only [wpred, Bool.and_eq_true, beq_iff_eq, decide_eq_true_eq]
        exact ⟨hc.2.symm, hc.1⟩
      simp only [insertTorrent]
      rw [lookup2_foldKeys_ne _ _ _ _ _ _ hcond]
      rw [List.find?_cons_of_neg _ (by simpa using hp)]

theorem lookup2_buildIndex (l : List Torrent) (k : Key) (q : Nat) :
    lookup2 (buildIndex l) k q = l.find? (wpred k q) := by
  unfold buildIndex
  rw [lookup2_foldl_insertTorrent]
  rfl

/-! Well-formedness: every inner dict of a built index is non-empty. -/

theorem foldl_preserves {σ α : Type} (P : σ → Prop) (f : σ → α → σ)
    (hf : ∀ s a, P s → P (f s a)) :
    ∀ (l : List α) (s : σ), P s → P (l.foldl f s) := by
  intro l
  induction l with
  | nil => intro s h; exact h
  | cons a t ih => intro s h; exact ih _ (hf s a h)

theorem indexInsert_wf (ix : FIndex) (k : Key) (q : Nat) (w : Torrent)
    (h : IndexWF ix) : IndexWF (indexInsert ix k q w) := by
  intro k' d hd
  unfold indexInsert at hd
  cases hix : alookup ix k with
  | none =>
    rw [hix] at hd
    rw [alookup_append] at hd
    cases h1 : alookup ix k' with
    | some d0 =>
      rw [h1] at hd
      injection hd with hd
      subst hd
      exact h k' d0 h1
    | none =>
      rw [h1] at hd
      by_cases hk : k = k'
      · subst hk
        rw [alookup_singleton_self] at hd
        injection hd with hd
        subst hd
        simp [qdictInsert, alookup]
      · rw [alookup_singleton_ne _ _ _ (fun hh => hk hh.symm)] at hd
        cases hd
  | some d0 =>
    rw [hix] at hd
    by_cases hk : k' = k
    · subst hk
      rw [alookup_aupdate_self _ _ _ (by rw [hix]; rfl)] at hd
      injection hd with hd
      subst hd
      have hd0 : d0 ≠ [] := h _ _ hix
      unfold qdictInsert
      split
      · exact hd0
      · simp
    · rw [alookup_aupdate_ne _ _ _ _ hk] at hd
      exact h _ _ hd

theorem insertTorrent_wf (ix : FIndex) (w : Torrent) (h : IndexWF ix) :
    IndexWF (insertTorrent ix w) := by
  unfold insertTorrent
  exact foldl_preserves IndexWF _ (fun s k hs => indexInsert_wf s k w.quality w hs) (keysOf w) ix h

theorem buildIndex_wf (l : List Torrent) : IndexWF (buildIndex l) := by
  unfold buildIndex
  apply foldl_preserves IndexWF insertTorrent (fun s w hs => insertTorrent_wf s w hs)
  intro k d hd
  cases hd

/-! Arithmetic helper: Python `max` over a non-empty list. -/

theorem listMax_mem : ∀ (l : List Nat), l ≠ [] → listMax l ∈ l := by
  intro l
  induction l with
  | nil => intro hl; exact absurd rfl hl
  | cons x xs ih =>
    intro _
    by_cases hxs : xs = []
    · subst hxs
      simp [listMax, Nat.max_zero]
    · have hmem := ih hxs
      simp only [listMax]
      rcases Nat.le_total x (listMax xs) with hle | hle
      · have heq : Nat.max x (listMax xs) = listMax xs := Nat.max_eq_right hle
        rw [heq]
        exact List.mem_cons_of_mem _ hmem
      · have heq : Nat.max x (listMax xs) = x := Nat.max_eq_left hle
        rw [heq]
        exact List.mem_cons_self _ _

theorem le_listMax : ∀ (l : List Nat) (x : Nat), x ∈ l → x ≤ listMax l := by
  intro l
  induction l with
  | nil => intro x h; simp at h
  | cons a t ih =>
    intro x h
    simp only [listMax]
    rcases List.mem_cons.mp h with h1 | h1
    · subst h1; exact Nat.le_max_left _ _
    · exact Nat.le_trans (ih x h1) (Nat.le_max_right _ _)

/-! Small list helpers. -/

theorem find?_isSome_of_mem {α : Type} (p : α → Bool) (l : List α) (x : α)
    (hx : x ∈ l) (hp : p x = true) : (l.find? p).isSome = true := by
  induction l with
  | nil => simp at hx
  | cons a t ih =>
    by_cases ha : p a = true
    · simp [List.find?_cons_of_pos _ ha]
    · rcases List.mem_cons.mp hx with h | h
      · subst h; exact absurd hp ha
      · rw [List.find?_cons_of_neg _ (by simpa using ha)]
        exact ih h

theorem isEmpty_false_of_ne_nil {α : Type} {l : List α} (h : l ≠ []) : l.isEmpty = false := by
  cases l
  · exact absurd rfl h
  · rfl

theorem ne_nil_of_isEmpty_false {α : Type} {l : List α} (h : l.isEmpty = false) : l ≠ [] := by
  cases l
  · simp at h
  · simp

theorem foldl_append_eq_filterMap (prs : Item → Option Torrent) :
    ∀ (l : List Item) (acc : List Torrent),
      l.foldl (fun acc e => match prs e with | some i => acc ++ [i] | none => acc) acc
        = acc ++ l.filterMap prs := by
  intro l
  induction l with
  | nil => intro acc; simp
  | cons e t ih =>
    intro acc
    simp only [List.foldl_cons, List.filterMap_cons]
    cases hp : prs e with
    | none => rw [ih]
    | some i =>
      rw [ih]
      simp

/-! Claim theorems. -/

/-- C10: a refresh whose feed parses successfully fully replaces the cached
list: afterwards the cache holds exactly the releases parsed from the current
feed's entries (in feed order, keeping only entries whose parse yields a
release), the update reports success, and the attempt time is stamped — no
release from an earlier fetch remains. -/
theorem update_success_replaces_cache (prs : Item → Option Torrent) (now : Nat)
    (entries : List Item) (s : FeederState) :
    (update prs now (some entries) s).1.latest = entries.filterMap prs
    ∧ (update prs now (some entries) s).2 = true
    ∧ (update prs now (some entries) s).1.last_update_datetime = some now := by
  refine ⟨?_, rfl, rfl⟩
  show entries.foldl
      (fun acc e => match prs e with | some i => acc ++ [i] | none => acc) []
    = entries.filterMap prs
  rw [foldl_append_eq_filterMap]
  exact List.nil_append _

/-- C1 fails on the code: `_update` clears `self._latest` (and stamps the
attempt time) before testing `if feed:`, so a failed fetch wipes the
previously cached releases instead of returning them unchanged.  Concretely,
after a successful refresh caches `[tC]`, a due `get_latest` whose fetch
fails returns `[]` and leaves an empty cache. -/
theorem fetch_failure_clears_cache_cex :
    ((update prs0 0 (some [itm0]) initFeeder).1.latest = [tC])
    ∧ ((get_latest prs0 1000 none (update prs0 0 (some [itm0]) initFeeder).1).2 = [])
    ∧ ((get_latest prs0 1000 none (update prs0 0 (some [itm0]) initFeeder).1).1.latest = [])
    ∧ [tC] ≠ ([] : List Torrent) := by
  refine ⟨by decide, by decide, by decide, by decide⟩

/-- C1 (amended): when a due refresh's feed fetch fails, `get_latest`
returns the empty list — the cache is cleared rather than kept — and the
attempt time is stamped; nothing is raised (the embedding stays total). -/
theorem fetch_failure_empties_cache (prs : Item → Option Torrent) (now : Nat)
    (s : FeederState) (h : is_due now s = true) :
    get_latest prs now none s
      = ({ s with latest := [], last_update_datetime := some now }, []) := by
  unfold get_latest
  simp only [h]
  rfl

/-- Witness for the amended C1 at a concrete cached state. -/
theorem fetch_failure_empties_cache_witness :
    is_due 1000 ⟨900, none, [tC], some 0⟩ = true
    ∧ get_latest prs0 1000 none ⟨900, none, [tC], some 0⟩
        = (⟨900, none, [], some 1000⟩, []) :=
  ⟨by decide, fetch_failure_empties_cache prs0 1000 ⟨900, none, [tC], some 0⟩ (by decide)⟩

/-- C5 fails on the code: `_update` stamps `_last_update_datetime` before
testing the feed, so even a failed fetch resets the refresh interval.  After
a failed attempt at time 0, a `get_latest` at time 100 (well inside the 900s
interval) triggers no refresh although no successful fetch ever occurred. -/
theorem failed_fetch_resets_interval_cex :
    ((update prs0 0 none initFeeder).2 = false)
    ∧ ((update prs0 0 none initFeeder).1.last_update_datetime = some 0)
    ∧ (is_due 100 (update prs0 0 none initFeeder).1 = false)
    ∧ (get_latest prs0 100 (some [itm0]) (update prs0 0 none initFeeder).1
        = ((update prs0 0 none initFeeder).1, [])) := by
  refine ⟨rfl, rfl, by decide, by decide⟩

/-- C5 (amended): `get_latest` refreshes exactly when no fetch attempt has
ever occurred, or more than `min_update_freq_secs` (default `15 * 60 = 900`
seconds) elapsed since the last attempt; every attempt — successful or not —
stamps the attempt time, so an unsuccessful fetch also resets the
interval. -/
theorem refresh_trigger_condition (prs : Item → Option Torrent) (now : Nat)
    (feed : Option (List Item)) (s : FeederState) :
    (is_due now s = true ↔
      s.last_update_datetime = none ∨
        ∃ t, s.last_update_datetime = some t ∧ t + s.min_update_freq_secs < now)
    ∧ (get_latest prs now feed s
        = if is_due now s then
            ((update prs now feed s).1, (update prs now feed s).1.latest)
          else (s, s.latest))
    ∧ ((update prs now feed s).1.last_update_datetime = some now)
    ∧ initFeeder.min_update_freq_secs = 900 := by
  refine ⟨?_, ?_, ?_, rfl⟩
  · unfold is_due
    cases hl : s.last_update_datetime with
    | none => simp
    | some t => simp
  · rfl
  · cases feed <;> rfl

/-- C4 is a code bug: `base.py` line 138 tests `enc.href.endwidth('.torrent')`
— a typo for `endswith` (used correctly for links on line 145).  `str` has no
`endwidth` attribute, so reaching the third disjunct raises `AttributeError`,
which the handler swallows, aborting the enclosure loop.  Hence an enclosure
whose href ends in `.torrent` but has a non-bittorrent MIME type contributes
nothing, and every later enclosure — even a bittorrent-typed one — is lost
as well.  Evaluated on `itmEnc`: its first enclosure's href does end in
`.torrent`, yet both enclosure urls are dropped and the item yields no
release, where the claim requires the hrefs to be collected. -/
theorem enclosure_endwidth_loses_torrent_url :
    (strEndsWith "http://example.com/file.torrent" ".torrent" = true)
    ∧ (collectEnclosureUrls
        [⟨"text/html", "http://example.com/file.torrent"⟩,
         ⟨"application/x-bittorrent", "http://example.com/f2"⟩] = [])
    ∧ (torrent_parse_rss_item npK 5 itmEnc = none) := by
  refine ⟨by decide, by decide, by decide⟩

/-- C6: an entry whose deduplicated url set is empty yields no release (the
parser returns `none`, not a release with an empty url list), and every
release the parser constructs has a non-empty url list. -/
theorem empty_urls_yield_no_release (np : NameParse) (now : Nat) (item : Item) :
    (dedup (collectUrls item) = [] → torrent_parse_rss_item np now item = none)
    ∧ (∀ t, torrent_parse_rss_item np now item = some t → t.urls ≠ []) := by
  constructor
  · intro h
    unfold torrent_parse_rss_item
    rw [h]
    rfl
  · intro t ht
    simp only [torrent_parse_rss_item] at ht
    split at ht
    · simp at ht
    · next hcond =>
      split at ht
      · injection ht with ht
        subst ht
        show dedup (collectUrls item) ≠ []
        intro hnil
        apply hcond
        rw [hnil]
        rfl
      · simp at ht

/-- Witness for C6: the bare item `itm0` collects no urls and yields no
release; the magnet item `itmMag` yields the release `tM`, whose url list is
non-empty. -/
theorem empty_urls_yield_no_release_witness :
    (dedup (collectUrls itm0) = [])
    ∧ (torrent_parse_rss_item npK 5 itm0 = none)
    ∧ (torrent_parse_rss_item npK 5 itmMag = some tM)
    ∧ tM.urls ≠ [] :=
  ⟨by decide, (empty_urls_yield_no_release npK 5 itm0).1 (by decide),
   by decide, (empty_urls_yield_no_release npK 5 itmMag).2 tM (by decide)⟩

/-- C9: an absent (or, equivalently through the fetch collaborator, a
malformed) published date never decides whether an entry yields a release —
the parse succeeds exactly as it would with a date present — and any release
produced without a date carries the current time as its timestamp. -/
theorem missing_date_uses_now (np : NameParse) (now : Nat)
    (fn mg : Option String) (encs : Option (List Enclosure)) (lks : Option (List RSSLink))
    (ttl : Option String) (pp : Option Nat) (ihsh : Option String) :
    ((torrent_parse_rss_item np now ⟨fn, mg, encs, lks, ttl, none, ihsh⟩).isSome
      = (torrent_parse_rss_item np now ⟨fn, mg, encs, lks, ttl, pp, ihsh⟩).isSome)
    ∧ (∀ t, torrent_parse_rss_item np now ⟨fn, mg, encs, lks, ttl, none, ihsh⟩ = some t →
        t.timestamp = now) := by
  have hcu : collectUrls ⟨fn, mg, encs, lks, ttl, none, ihsh⟩
      = collectUrls ⟨fn, mg, encs, lks, ttl, pp, ihsh⟩ := rfl
  constructor
  · simp only [torrent_parse_rss_item]
    rw [hcu]
    split
    · rfl
    · split
      · rfl
      · rfl
  · intro t ht
    simp only [torrent_parse_rss_item] at ht
    split at ht
    · simp at ht
    · split at ht
      · injection ht with ht
        subst ht
        rfl
      · simp at ht

/-- Witness for C9: `itmMag` with its date removed still parses, and the
produced release's timestamp is the clock reading 5. -/
theorem missing_date_uses_now_witness :
    (torrent_parse_rss_item npK 5
        ⟨none, some "magnet:?xt=urn:btih:aa", none, none, some "Show.S01E05", none, none⟩
      = some tM2)
    ∧ tM2.timestamp = 5 :=
  ⟨by decide,
   (missing_date_uses_now npK 5 none (some "magnet:?xt=urn:btih:aa") none none
      (some "Show.S01E05") (some 7) none).2 tM2 (by decide)⟩

/-- C8: for a ShowRSS entry whose title carries the marker `HD 720p: `, the
marker (9 characters) is stripped from the title before the generic parse,
and the resulting release's quality is overridden to `HD720P_COMP` exactly
when the generic parse produced `UNKNOWN_QUALITY`; a confidently detected
quality is returned untouched, and a failed generic parse stays a
no-result. -/
theorem showrss_quality_override (np : NameParse) (now : Nat) (item : Item) (ttl : String)
    (ht : item.title = some ttl) (hm : strStartsWith ttl "HD 720p: " = true) :
    (∀ tor, torrent_parse_rss_item np now { item with title := some (strDrop ttl 9) } = some tor →
        tor.quality = UNKNOWN_QUALITY →
        showrss_parse np now item = Except.ok (some { tor with quality := HD720P_COMP }))
    ∧ (∀ tor, torrent_parse_rss_item np now { item with title := some (strDrop ttl 9) } = some tor →
        tor.quality ≠ UNKNOWN_QUALITY →
        showrss_parse np now item = Except.ok (some tor))
    ∧ (torrent_parse_rss_item np now { item with title := some (strDrop ttl 9) } = none →
        showrss_parse np now item = Except.ok none) := by
  refine ⟨?_, ?_, ?_⟩
  · intro tor htor hq
    simp only [showrss_parse, ht, hm, if_true]
    rw [htor]
    simp [hq]
  · intro tor htor hq
    simp only [showrss_parse, ht, hm, if_true]
    rw [htor]
    simp [hq]
  · intro h0
    simp only [showrss_parse, ht, hm, if_true]
    rw [h0]

/-- Witness for C8: `itmHD` carries the marker; under the name parser `npU`
the generic parse of the stripped item gives `tHD` at `UNKNOWN_QUALITY`, and
the ShowRSS parse returns `tHD` with its quality overridden to
`HD720P_COMP`. -/
theorem showrss_quality_override_witness :
    (itmHD.title = some "HD 720p: Foo.S01E05")
    ∧ (strStartsWith "HD 720p: Foo.S01E05" "HD 720p: " = true)
    ∧ (torrent_parse_rss_item npU 7
        { itmHD with title := some (strDrop "HD 720p: Foo.S01E05" 9) } = some tHD)
    ∧ (tHD.quality = UNKNOWN_QUALITY)
    ∧ showrss_parse npU 7 itmHD = Except.ok (some { tHD with quality := HD720P_COMP }) :=
  ⟨by decide, by decide, by decide, by decide,
   (showrss_quality_override npU 7 itmHD "HD 720p: Foo.S01E05" (by decide) (by decide)).1
     tHD (by decide) (by decide)⟩

/-- C2: whenever some wanted release references an episode key with a known
(non-UNKNOWN) quality, the resolution run selects and dispatches the release
recorded at the numerically maximum known quality for that key: the winner
has a known quality, is a wanted release recorded for that key, and its
quality dominates every known quality of every wanted release referencing
the key — in particular a higher known quality beats source priority. -/
theorem resolution_selects_max_known (wp : Torrent → Bool) (latest : List Torrent) (k : Key)
    (h : ∃ v ∈ latest.filter wp, k ∈ keysOf v ∧ v.quality ≠ UNKNOWN_QUALITY) :
    ∃ d w, alookup (buildIndex (latest.filter wp)) k = some d
      ∧ selectFor d = some w
      ∧ selectedFor wp latest k = some w
      ∧ (k, some w) ∈ run wp latest
      ∧ w.quality ≠ UNKNOWN_QUALITY
      ∧ (∃ v ∈ latest.filter wp, k ∈ keysOf v ∧ v.quality = w.quality)
      ∧ (∀ v ∈ latest.filter wp, k ∈ keysOf v → v.quality ≠ UNKNOWN_QUALITY →
          v.quality ≤ w.quality) := by
  obtain ⟨v0, hv0m, hv0k, hv0q⟩ := h
  have hfind0 : ((latest.filter wp).find? (wpred k v0.quality)).isSome = true :=
    find?_isSome_of_mem _ _ v0 hv0m (by simp [wpred, hv0k])
  have hl0 : (lookup2 (buildIndex (latest.filter wp)) k v0.quality).isSome = true := by
    rw [lookup2_buildIndex]
    exact hfind0
  cases hix : alookup (buildIndex (latest.filter wp)) k with
  | none =>
    unfold lookup2 at hl0
    rw [hix] at hl0
    simp at hl0
  | some d =>
    have hdq : (alookup d v0.quality).isSome = true := by
      unfold lookup2 at hl0
      rw [hix] at hl0
      exact hl0
    have hv0keys : v0.quality ∈ d.map Prod.fst := mem_keys_of_alookup_isSome _ _ hdq
    have hknown : v0.quality ∈ (d.map Prod.fst).filter (fun q => q != UNKNOWN_QUALITY) :=
      List.mem_filter.mpr ⟨hv0keys, by simpa using hv0q⟩
    have hkne : (d.map Prod.fst).filter (fun q => q != UNKNOWN_QUALITY) ≠ [] := by
      intro hc
      rw [hc] at hknown
      simp at hknown
    have hie : ((d.map Prod.fst).filter (fun q => q != UNKNOWN_QUALITY)).isEmpty = false :=
      isEmpty_false_of_ne_nil hkne
    have hmaxmem : listMax ((d.map Prod.fst).filter (fun q => q != UNKNOWN_QUALITY))
        ∈ (d.map Prod.fst).filter (fun q => q != UNKNOWN_QUALITY) := listMax_mem _ hkne
    have hqmne : listMax ((d.map Prod.fst).filter (fun q => q != UNKNOWN_QUALITY))
        ≠ UNKNOWN_QUALITY := by
      have h2 := (List.mem_filter.mp hmaxmem).2
      simpa using h2
    have hqmkeys : listMax ((d.map Prod.fst).filter (fun q => q != UNKNOWN_QUALITY))
        ∈ d.map Prod.fst := (List.mem_filter.mp hmaxmem).1
    have hqms : (alookup d (listMax ((d.map Prod.fst).filter
        (fun q => q != UNKNOWN_QUALITY)))).isSome = true :=
      alookup_isSome_of_mem_keys _ _ hqmkeys
    obtain ⟨w, hwsome⟩ := Option.isSome_iff_exists.mp hqms
    have hsel : selectFor d = some w := by
      simp only [selectFor, hie]
      simpa using hwsome
    have hlw : lookup2 (buildIndex (latest.filter wp)) k
        (listMax ((d.map Prod.fst).filter (fun q => q != UNKNOWN_QUALITY))) = some w := by
      unfold lookup2
      rw [hix]
      exact hwsome
    have hfw : (latest.filter wp).find? (wpred k
        (listMax ((d.map Prod.fst).filter (fun q => q != UNKNOWN_QUALITY)))) = some w := by
      rw [← lookup2_buildIndex]
      exact hlw
    have hwp' := List.find?_some hfw
    simp only [wpred, Bool.and_eq_true, beq_iff_eq, decide_eq_true_eq] at hwp'
    obtain ⟨hwq2, hwk⟩ := hwp'
    have hwmem : w ∈ latest.filter wp := List.mem_of_find?_eq_some hfw
    refine ⟨d, w, rfl, hsel, ?_, ?_, ?_, ?_, ?_⟩
    · unfold selectedFor
      rw [hix]
      exact hsel
    · have hmem : (k, d) ∈ buildIndex (latest.filter wp) :=
        mem_of_alookup_eq_some _ _ _ hix
      unfold run
      refine List.mem_map.mpr ⟨(k, d), hmem, ?_⟩
      simp [hsel]
    · rw [hwq2]
      exact hqmne
    · exact ⟨w, hwmem, hwk, rfl⟩
    · intro v hv hvk hvq
      have hfv : ((latest.filter wp).find? (wpred k v.quality)).isSome = true :=
        find?_isSome_of_mem _ _ v hv (by simp [wpred, hvk])
      have hlv : (lookup2 (buildIndex (latest.filter wp)) k v.quality).isSome = true := by
        rw [lookup2_buildIndex]
        exact hfv
      have hdv : (alookup d v.quality).isSome = true := by
        unfold lookup2 at hlv
        rw [hix] at hlv
        exact hlv
      have hvkeys : v.quality ∈ d.map Prod.fst := mem_keys_of_alookup_isSome _ _ hdv
      have hvknown : v.quality ∈ (d.map Prod.fst).filter (fun q => q != UNKNOWN_QUALITY) :=
        List.mem_filter.mpr ⟨hvkeys, by simpa using hvq⟩
      have hle := le_listMax _ _ hvknown
      rw [hwq2]
      exact hle

/-- Witness for C2: the spec's example — A (earlier source, HD720p = 2) and
B (later source, HD1080p = 3) both report episode `(42, 1, 5)`; the run
dispatches B's release, higher known quality beating source priority. -/
theorem resolution_selects_max_known_witness :
    (run wp0 [tA, tB] = [(k0, some tB)])
    ∧ (∃ v ∈ [tA, tB].filter wp0, k0 ∈ keysOf v ∧ v.quality ≠ UNKNOWN_QUALITY)
    ∧ (∃ d w, alookup (buildIndex ([tA, tB].filter wp0)) k0 = some d
        ∧ selectFor d = some w
        ∧ selectedFor wp0 [tA, tB] k0 = some w
        ∧ (k0, some w) ∈ run wp0 [tA, tB]
        ∧ w.quality ≠ UNKNOWN_QUALITY
        ∧ (∃ v ∈ [tA, tB].filter wp0, k0 ∈ keysOf v ∧ v.quality = w.quality)
        ∧ (∀ v ∈ [tA, tB].filter wp0, k0 ∈ keysOf v → v.quality ≠ UNKNOWN_QUALITY →
            v.quality ≤ w.quality)) :=
  ⟨by decide, by decide, resolution_selects_max_known wp0 [tA, tB] k0 (by decide)⟩

/-- C3: the nested index records a release under an `(EpisodeRef, Quality)`
pair only when no entry exists for that pair, so the entry at every pair is
the first wanted release in priority order with that quality referencing
that key; consequently whatever release the engine selects for a key is the
first-seen wanted release at its quality level — a later same-quality
release from a lower-priority source is never chosen. -/
theorem resolution_first_seen_wins (wp : Torrent → Bool) (latest : List Torrent) (k : Key) :
    (∀ q, lookup2 (buildIndex (latest.filter wp)) k q = (latest.filter wp).find? (wpred k q))
    ∧ (∀ w, selectedFor wp latest k = some w →
        (latest.filter wp).find? (wpred k w.quality) = some w) := by
  constructor
  · intro q
    exact lookup2_buildIndex _ _ _
  · intro w hsel
    unfold selectedFor at hsel
    cases hix : alookup (buildIndex (latest.filter wp)) k with
    | none =>
      rw [hix] at hsel
      simp at hsel
    | some d =>
      rw [hix] at hsel
      replace hsel : selectFor d = some w := hsel
      have key : ∀ q', alookup d q' = some w →
          (latest.filter wp).find? (wpred k w.quality) = some w := by
        intro q' hq'
        have hl : lookup2 (buildIndex (latest.filter wp)) k q' = some w := by
          unfold lookup2
          rw [hix]
          exact hq'
        have hf : (latest.filter wp).find? (wpred k q') = some w := by
          rw [← lookup2_buildIndex]
          exact hl
        have hwp' := List.find?_some hf
        simp only [wpred, Bool.and_eq_true, beq_iff_eq, decide_eq_true_eq] at hwp'
        rw [hwp'.1]
        exact hf
      simp only [selectFor] at hsel
      split at hsel
      · exact key _ hsel
      · exact key _ hsel

/-- Witness for C3: `tA2` and `tB2` share key and quality; the earlier
`tA2` is selected and is the first-seen release at its quality. -/
theorem resolution_first_seen_wins_witness :
    (selectedFor wp0 [tA2, tB2] k0 = some tA2)
    ∧ (([tA2, tB2].filter wp0).find? (wpred k0 tA2.quality) = some tA2) :=
  ⟨by decide, (resolution_first_seen_wins wp0 [tA2, tB2] k0).2 tA2 (by decide)⟩

/-- C7: for an episode key present in the index whose recorded qualities,
excluding `UNKNOWN_QUALITY`, are empty, the fallback lookup at
`UNKNOWN_QUALITY` succeeds: an inner dict is only ever created together with
at least one quality entry, so the selection never fails. -/
theorem unknown_fallback_present (wp : Torrent → Bool) (latest : List Torrent) (k : Key)
    (d : QDict) (hd : alookup (buildIndex (latest.filter wp)) k = some d)
    (hnone : (d.map Prod.fst).filter (fun q => q != UNKNOWN_QUALITY) = []) :
    (alookup d UNKNOWN_QUALITY).isSome = true
    ∧ selectFor d = alookup d UNKNOWN_QUALITY
    ∧ (selectFor d).isSome = true
    ∧ (selectedFor wp latest k).isSome = true := by
  have hdne : d ≠ [] := buildIndex_wf (latest.filter wp) k d hd
  have hall : ∀ q ∈ d.map Prod.fst, q = UNKNOWN_QUALITY := by
    intro q hq
    by_contra hne
    have hmem : q ∈ (d.map Prod.fst).filter (fun q => q != UNKNOWN_QUALITY) :=
      List.mem_filter.mpr ⟨hq, by simpa using hne⟩
    rw [hnone] at hmem
    simp at hmem
  have hmem : UNKNOWN_QUALITY ∈ d.map Prod.fst := by
    obtain ⟨p, t, hdd⟩ : ∃ p t, d = p :: t := by
      cases d with
      | nil => exact absurd rfl hdne
      | cons p t => exact ⟨p, t, rfl⟩
    have hp1 : p.1 ∈ d.map Prod.fst := by
      rw [hdd]
      simp
    have hp := hall _ hp1
    rw [← hp]
    exact hp1
  have h1 : (alookup d UNKNOWN_QUALITY).isSome = true := alookup_isSome_of_mem_keys _ _ hmem
  have h2 : selectFor d = alookup d UNKNOWN_QUALITY := by
    simp only [selectFor, hnone]
    rfl
  refine ⟨h1, h2, ?_, ?_⟩
  · rw [h2]
    exact h1
  · unfold selectedFor
    rw [hd]
    show (selectFor d).isSome = true
    rw [h2]
    exact h1

/-- Witness for C7: a single wanted release at `UNKNOWN_QUALITY` produces an
index entry whose only key is `UNKNOWN_QUALITY`, and the fallback selection
succeeds. -/
theorem unknown_fallback_present_witness :
    (alookup (buildIndex ([tU].filter wp0)) k0 = some [(UNKNOWN_QUALITY, tU)])
    ∧ ((([(UNKNOWN_QUALITY, tU)] : QDict).map Prod.fst).filter
        (fun q => q != UNKNOWN_QUALITY) = [])
    ∧ ((alookup ([(UNKNOWN_QUALITY, tU)] : QDict) UNKNOWN_QUALITY).isSome = true
       ∧ selectFor [(UNKNOWN_QUALITY, tU)]
           = alookup ([(UNKNOWN_QUALITY, tU)] : QDict) UNKNOWN_QUALITY
       ∧ (selectFor [(UNKNOWN_QUALITY, tU)]).isSome = true
       ∧ (selectedFor wp0 [tU] k0).isSome = true) :=
  ⟨by decide, by decide,
   unknown_fallback_present wp0 [tU] k0 [(UNKNOWN_QUALITY, tU)] (by decide) (by decide)⟩

end TvTumbler
